import Mathlib

/-!
Verification development for the fire-detection data processor
(`scripts/process_fire_data.py`).

The script downloads satellite fire points, joins them to district
polygons, aggregates counts by (acquisition date, state, district) and
serializes two JSON documents.  The aggregation and serialization stages
are embedded below as pure functions over lists; pandas dataframes become
lists of records, `groupby` becomes dedup-and-count over composite keys
(pandas sorts group keys ascending), and `sort_values` becomes a stable
merge sort with the comparison used by the script.
-/

/-- A date value as it arrives from the upstream reader: either an
already-formatted string or a rich date object carrying year, month and
day.  These are the two representations handled at lines 204-208 and
262-275 of the script. -/
inductive FDate where
  | str (s : String)
  | obj (y m d : Nat)
  deriving DecidableEq, Repr

/-- Zero-padded two-digit decimal rendering, as strftime %m / %d. -/
def pad2 (n : Nat) : List Char :=
  [Nat.digitChar (n / 10 % 10), Nat.digitChar (n % 10)]

/-- Zero-padded four-digit decimal rendering, as strftime %Y.  Python
date objects restrict years to 1..9999, so four digits always suffice. -/
def pad4 (n : Nat) : List Char :=
  [Nat.digitChar (n / 1000 % 10), Nat.digitChar (n / 100 % 10),
   Nat.digitChar (n / 10 % 10), Nat.digitChar (n % 10)]

/-- The date normalization of lines 204-208 and 267-272: an
already-string date passes through unchanged, a date object is rendered
by `strftime` as YYYY-MM-DD. -/
def FDate.render : FDate → String
  | .str s => s
  | .obj y m d => String.mk (pad4 y ++ ('-' :: pad2 m) ++ ('-' :: pad2 d))

/-- The shape of a plain calendar-date string: four digits, a dash, two
digits, a dash, two digits. -/
def isYYYYMMDD (s : String) : Bool :=
  match s.data with
  | [y1, y2, y3, y4, h1, m1, m2, h2, d1, d2] =>
      y1.isDigit && y2.isDigit && y3.isDigit && y4.isDigit &&
      decide (h1 = '-') && m1.isDigit && m2.isDigit &&
      decide (h2 = '-') && d1.isDigit && d2.isDigit
  | _ => false

/-- Lexicographic code-point comparison of character lists: this is how
Python compares strings. -/
def charListLe : List Char → List Char → Bool
  | [], _ => true
  | _ :: _, [] => false
  | a :: as, b :: bs =>
      if a = b then charListLe as bs
      else decide (a.toNat < b.toNat)

/-- Boolean comparison on strings (Python string comparison). -/
def strLe (a b : String) : Bool := charListLe a.data b.data

/-- Boolean reverse comparison on naturals, for descending sorts. -/
def natGe (a b : Nat) : Bool := decide (b ≤ a)

/-- Ascending order on date values, as Python compares the elements of a
homogeneous date column: string comparison on strings, chronological
(lexicographic) comparison on date objects.  Across the two forms the
order is fixed arbitrarily (a column never mixes them). -/
def FDate.le : FDate → FDate → Bool
  | .str a, .str b => strLe a b
  | .str _, .obj _ _ _ => true
  | .obj _ _ _, .str _ => false
  | .obj y1 m1 d1, .obj y2 m2 d2 =>
      decide (y1 < y2) ||
        (decide (y1 = y2) &&
          (decide (m1 < m2) || (decide (m1 = m2) && decide (d1 ≤ d2))))

/-- Lexicographic combination of two Boolean comparisons on a pair:
compare second components only when the first components are equal.
This is how pandas orders rows under a multi-column ascending sort. -/
def lex2 {α β : Type} [DecidableEq α]
    (la : α → α → Bool) (lb : β → β → Bool) (x y : α × β) : Bool :=
  if x.1 = y.1 then lb x.2 y.2 else la x.1 y.1

/-- The district-name attribute column configured at line 32. -/
def DISTRICT_COLUMN : String := "dtname"

/-- A fire point after the inner spatial join of line 148: the point
keeps its ACQ_DATE and gains the state and dtname attributes of its
enclosing district polygon. -/
structure MPoint where
  ACQ_DATE : FDate
  state : String
  dtname : String
  deriving DecidableEq, Repr

/-- The groupby key (ACQ_DATE, state, dtname) of line 157. -/
def MPoint.key (p : MPoint) : FDate × String × String :=
  (p.ACQ_DATE, p.state, p.dtname)

/-- One row of the aggregate table `district_counts`. -/
structure AggRow where
  ACQ_DATE : FDate
  state : String
  dtname : String
  fire_count : Nat
  deriving DecidableEq, Repr

/-- The composite key of an aggregate row. -/
def AggRow.key (r : AggRow) : FDate × String × String :=
  (r.ACQ_DATE, r.state, r.dtname)

/-- Ascending order on group keys: pandas `groupby` sorts its group keys
ascending by (ACQ_DATE, state, dtname). -/
def keyLe : FDate × String × String → FDate × String × String → Bool :=
  lex2 FDate.le (lex2 strLe strLe)

/-- `groupby(['ACQ_DATE', 'state', DISTRICT_COLUMN]).size()` of line
157: one row per distinct key of the matched points, keys ascending, and
`fire_count` the size of the group. -/
def groupby_size (pts : List MPoint) : List AggRow :=
  (((pts.map MPoint.key).dedup).mergeSort keyLe).map fun k =>
    ⟨k.1, k.2.1, k.2.2, pts.countP fun p => decide (p.key = k)⟩

/-- The row order of line 158:
`sort_values(['ACQ_DATE', 'state', 'fire_count'], ascending=[True, True, False])`. -/
def aggLe (a b : AggRow) : Bool :=
  lex2 FDate.le (lex2 strLe natGe)
    (a.ACQ_DATE, a.state, a.fire_count) (b.ACQ_DATE, b.state, b.fire_count)

/-- The aggregation stage of `process_fire_counts` (lines 155-171),
taking the matched points produced by the spatial join.  The pre-join
sort of the raw points at line 134 cannot change group keys or group
sizes and is dropped.  An empty matched set yields the empty table, as
does the early return of lines 129-131. -/
def process_fire_counts (matched : List MPoint) : List AggRow :=
  (groupby_size matched).mergeSort aggLe

/-- One `{district, fire_count}` object of the daily document. -/
structure DistrictCount where
  district : String
  fire_count : Nat
  deriving DecidableEq, Repr

/-- One per-state block of a daily entry. -/
structure StateDaily where
  districts : List DistrictCount
  total : Nat
  deriving DecidableEq, Repr

/-- One per-date entry of `daily_data` (lines 231-242). -/
structure DailyEntry where
  date : String
  punjab : StateDaily
  haryana : StateDaily
  combined_total : Nat
  deriving DecidableEq, Repr

/-- The daily output document `fire_counts.json` (lines 192-197). -/
structure DailyDoc where
  last_updated : String
  data_source : String
  time_period : String
  daily_data : List DailyEntry
  deriving DecidableEq, Repr

/-- `sorted(district_counts['ACQ_DATE'].unique())` (lines 200 and 263). -/
def unique_dates (t : List AggRow) : List FDate :=
  ((t.map AggRow.ACQ_DATE).dedup).mergeSort FDate.le

/-- The rows of one date (line 210). -/
def date_data (t : List AggRow) (d : FDate) : List AggRow :=
  t.filter fun r => decide (r.ACQ_DATE = d)

/-- The rows of one state within a row set (lines 212-213). -/
def state_rows (rows : List AggRow) (s : String) : List AggRow :=
  rows.filter fun r => decide (r.state = s)

/-- `rows['fire_count'].sum()`. -/
def fire_sum (rows : List AggRow) : Nat :=
  (rows.map AggRow.fire_count).sum

/-- The `{district, fire_count}` list of one state block (lines
215-229). -/
def district_list (rows : List AggRow) : List DistrictCount :=
  rows.map fun r => ⟨r.dtname, r.fire_count⟩

/-- One entry of `daily_data` (lines 203-242). -/
def daily_entry (t : List AggRow) (d : FDate) : DailyEntry :=
  let dd := date_data t d
  let punjab_data := state_rows dd "Punjab"
  let haryana_data := state_rows dd "Haryana"
  { date := d.render
    punjab := ⟨district_list punjab_data, fire_sum punjab_data⟩
    haryana := ⟨district_list haryana_data, fire_sum haryana_data⟩
    combined_total := fire_sum punjab_data + fire_sum haryana_data }

/-- `create_json_output` (lines 179-248).  The wall-clock timestamp is
passed in as `now`; the empty table takes the explicit empty-dataset
branch of lines 183-190. -/
def create_json_output (now : String) (t : List AggRow) : DailyDoc :=
  if t = [] then
    ⟨now, "NASA FIRMS VIIRS (NOAA-20)", "7 days", []⟩
  else
    ⟨now, "NASA FIRMS VIIRS (NOAA-20)", "7 days",
      (unique_dates t).map (daily_entry t)⟩

/-- One entry of the summary `top_districts` list (lines 291-298). -/
structure TopDistrict where
  state : String
  district : String
  total_fires : Nat
  deriving DecidableEq, Repr

/-- The summary `date_range` object. -/
structure DateRange where
  start : Option String
  «end» : Option String
  deriving DecidableEq, Repr

/-- The summary `state_totals` object, a mapping with the two fixed
region keys (lines 302-305). -/
structure StateTotals where
  punjab : Nat
  haryana : Nat
  deriving DecidableEq, Repr

/-- The summary output document `fire_counts_summary.json`. -/
structure SummaryDoc where
  last_updated : String
  total_fire_count : Nat
  date_range : DateRange
  top_districts : List TopDistrict
  state_totals : StateTotals
  deriving DecidableEq, Repr

/-- Ascending groupby-key order on (state, dtname) pairs (line 288). -/
def pairLe : String × String → String × String → Bool :=
  lex2 strLe strLe

/-- `groupby(['state', DISTRICT_COLUMN])['fire_count'].sum()` of line
288: one entry per distinct (state, dtname) pair of the table, pairs
ascending, with the whole-period sum of the pair. -/
def pair_sums (t : List AggRow) : List TopDistrict :=
  (((t.map fun r => (r.state, r.dtname)).dedup).mergeSort pairLe).map fun p =>
    ⟨p.1, p.2, fire_sum (t.filter fun r => decide ((r.state, r.dtname) = p))⟩

/-- `sort_values('fire_count', ascending=False)` of line 289, as a
comparison: total_fires descending. -/
def topLe (a b : TopDistrict) : Bool := natGe a.total_fires b.total_fires

/-- `top_districts` (lines 288-298): sort the per-pair sums by
total_fires descending and keep the first 20.  pandas uses numpy
quicksort for this single-column sort, which specifies no order among
tied rows; the model picks the stable merge sort as one concrete
descending arrangement, and any theorem whose truth could depend on the
arrangement of ties quantifies over every descending arrangement of the
pair sums instead of relying on this choice. -/
def top_districts (t : List AggRow) : List TopDistrict :=
  ((pair_sums t).mergeSort topLe).take 20

/-- `groupby('state')['fire_count'].sum().get(s, 0)` (lines 301-305). -/
def state_total (t : List AggRow) (s : String) : Nat :=
  fire_sum (state_rows t s)

/-- `create_summary_output` (lines 250-308).  The empty table takes the
explicit branch of lines 253-260.  For a non-empty table the date range
is the first and last of the sorted unique dates; lines 266-275 pick the
rendering branch from the first element's representation, which on the
homogeneous date columns that reach this point coincides with rendering
each endpoint. -/
def create_summary_output (now : String) (t : List AggRow) : SummaryDoc :=
  if t = [] then
    ⟨now, 0, ⟨none, none⟩, [], ⟨0, 0⟩⟩
  else
    { last_updated := now
      total_fire_count := fire_sum t
      date_range := ⟨((unique_dates t).head?).map FDate.render,
                     ((unique_dates t).getLast?).map FDate.render⟩
      top_districts := top_districts t
      state_totals := ⟨state_total t "Punjab", state_total t "Haryana"⟩ }

/-- One source shapefile table of district polygons: the attribute
columns it carries and the district-name attribute of each row. -/
structure DistrictSource where
  columns : List String
  names : List String
  deriving DecidableEq, Repr

/-- One district polygon row after loading, tagged with its state. -/
structure District where
  dtname : String
  state : String
  deriving DecidableEq, Repr

/-- Fatal run diagnostics.  The missing-column failure of lines 93-101
prints the message together with the full list of columns available in
the offending source and terminates the process. -/
inductive PipelineError where
  | configurationError (message : String) (available_columns : List String)
  deriving DecidableEq, Repr

/-- `load_district_shapefiles` (lines 72-117): require DISTRICT_COLUMN
in each source (Punjab checked first), stamp each row with its state and
concatenate Punjab rows before Haryana rows. -/
def load_district_shapefiles (punjab haryana : DistrictSource) :
    Except PipelineError (List District) :=
  if DISTRICT_COLUMN ∈ punjab.columns then
    if DISTRICT_COLUMN ∈ haryana.columns then
      .ok (punjab.names.map (fun n => ⟨n, "Punjab"⟩) ++
           haryana.names.map (fun n => ⟨n, "Haryana"⟩))
    else
      .error (.configurationError
        "Column dtname not found in Haryana shapefile" haryana.columns)
  else
    .error (.configurationError
      "Column dtname not found in Punjab shapefile" punjab.columns)

/-- A point layer: the common CRS tag of the layer and its geometries. -/
structure PointLayer (Geom : Type) where
  crs : String
  geoms : List Geom
  deriving DecidableEq

/-- The CRS reconciliation of lines 141-144: when the CRS of the points
already equals the CRS of the districts the points pass through
untouched; otherwise `to_crs` reprojects every geometry into the
districts CRS.  The library transform is abstracted as the function
argument `to_crs` (source CRS, target CRS, geometry). -/
def reconcile_crs {Geom : Type} (to_crs : String → String → Geom → Geom)
    (points : PointLayer Geom) (districts_crs : String) : PointLayer Geom :=
  if points.crs = districts_crs then points
  else ⟨districts_crs, points.geoms.map (to_crs points.crs districts_crs)⟩

/-- The observable outcome of one run: the process exit code and the two
JSON files, `none` when the run terminates before step 5 writes them. -/
structure RunResult where
  exit_code : Nat
  fire_counts_json : Option DailyDoc
  fire_counts_summary_json : Option SummaryDoc
  deriving DecidableEq, Repr

/-- `main` (lines 310-358) from the point where the fire archive has
been downloaded: load the two district sources, obtain the matched
points (download plus spatial join abstracted as `matched`), aggregate,
build both documents and write both files with exit code 0.  A loader
failure terminates with exit code 1 before any output file is written. -/
def main_run (now : String) (punjab haryana : DistrictSource)
    (matched : List District → List MPoint) : RunResult :=
  match load_district_shapefiles punjab haryana with
  | .error _ => ⟨1, none, none⟩
  | .ok districts =>
      let t := process_fire_counts (matched districts)
      ⟨0, some (create_json_output now t), some (create_summary_output now t)⟩

/-! ### Concrete inputs used to instantiate the theorems -/

/-- One matched point: a detection in Ludhiana (Punjab) on 2024-01-01. -/
def exPoints : List MPoint :=
  [⟨.str "2024-01-01", "Punjab", "Ludhiana"⟩]

/-- A one-row aggregate table. -/
def exTable : List AggRow :=
  [⟨.str "2024-01-01", "Punjab", "Ludhiana", 2⟩]

/-- A table with two districts tied on their whole-period counts, the
lexicographically later district first. -/
def exTableTies : List AggRow :=
  [⟨.str "2024-01-01", "Punjab", "Zebra", 5⟩,
   ⟨.str "2024-01-02", "Punjab", "Alpha", 5⟩]

/-- A table whose upstream date is a string that is not in YYYY-MM-DD
form. -/
def exTableStr : List AggRow :=
  [⟨.str "Jan 1, 2024", "Punjab", "Ludhiana", 7⟩]

/-- A table whose upstream date is a date object. -/
def exTableObj : List AggRow :=
  [⟨.obj 2024 1 1, "Punjab", "Ludhiana", 3⟩]

/-- A district source carrying the configured dtname column. -/
def exSrcGood : DistrictSource := ⟨["dtname", "geometry"], ["Ludhiana"]⟩

/-- A district source missing the configured dtname column. -/
def exSrcBad : DistrictSource := ⟨["DISTRICT", "geometry"], ["Ludhiana"]⟩

/-! ### Order facts for the comparison functions -/

theorem char_toNat_inj {a b : Char} (h : a.toNat = b.toNat) : a = b := by
  have h2 := congrArg Char.ofNat h
  rwa [Char.ofNat_toNat, Char.ofNat_toNat] at h2

theorem charListLe_refl : ∀ a : List Char, charListLe a a
  | [] => by simp [charListLe]
  | x :: as => by
      simp only [charListLe, if_pos rfl]
      exact charListLe_refl as

theorem charListLe_total : ∀ a b : List Char, charListLe a b || charListLe b a := by
  intro a
  induction a with
  | nil => intro b; simp [charListLe]
  | cons x as ih =>
      intro b
      cases b with
      | nil => simp [charListLe]
      | cons y bs =>
          by_cases hxy : x = y
          · subst hxy
            simp only [charListLe, if_pos rfl]
            exact ih bs
          · have h1 : x.toNat ≠ y.toNat := fun h => hxy (char_toNat_inj h)
            simp only [charListLe, if_neg hxy, if_neg (Ne.symm hxy),
              Bool.or_eq_true, decide_eq_true_eq]
            omega

theorem charListLe_trans : ∀ {a b c : List Char},
    charListLe a b → charListLe b c → charListLe a c := by
  intro a
  induction a with
  | nil => intro b c _ _; simp [charListLe]
  | cons x as ih =>
      intro b c h1 h2
      cases b with
      | nil => simp [charListLe] at h1
      | cons y bs =>
          cases c with
          | nil => simp [charListLe] at h2
          | cons z cs =>
              by_cases hxy : x = y <;> by_cases hyz : y = z
              · subst hxy
                subst hyz
                simp only [charListLe, if_pos rfl] at h1 h2 ⊢
                exact ih h1 h2
              · subst hxy
                simp only [charListLe, if_neg hyz] at h2 ⊢
                exact h2
              · subst hyz
                simp only [charListLe, if_neg hxy] at h1 ⊢
                exact h1
              · by_cases hxz : x = z
                · subst hxz
                  simp only [charListLe, if_neg hxy, if_neg hyz,
                    decide_eq_true_eq] at h1 h2
                  exfalso
                  omega
                · simp only [charListLe, if_neg hxy, if_neg hyz, if_neg hxz,
                    decide_eq_true_eq] at h1 h2 ⊢
                  omega

theorem charListLe_antisymm : ∀ {a b : List Char},
    charListLe a b → charListLe b a → a = b := by
  intro a
  induction a with
  | nil =>
      intro b h1 h2
      cases b with
      | nil => rfl
      | cons y bs => simp [charListLe] at h2
  | cons x as ih =>
      intro b h1 h2
      cases b with
      | nil => simp [charListLe] at h1
      | cons y bs =>
          by_cases hxy : x = y
          · subst hxy
            simp only [charListLe, if_pos rfl] at h1 h2
            rw [ih h1 h2]
          · simp only [charListLe, if_neg hxy, if_neg (Ne.symm hxy),
              decide_eq_true_eq] at h1 h2
            exfalso
            omega

theorem strLe_refl (a : String) : strLe a a :=
  charListLe_refl a.data

theorem strLe_total (a b : String) : strLe a b || strLe b a :=
  charListLe_total a.data b.data

theorem strLe_trans {a b c : String} (h1 : strLe a b) (h2 : strLe b c) :
    strLe a c :=
  charListLe_trans h1 h2

theorem strLe_antisymm {a b : String} (h1 : strLe a b) (h2 : strLe b a) :
    a = b :=
  congrArg String.mk (charListLe_antisymm h1 h2)

theorem natGe_total (a b : Nat) : natGe a b || natGe b a := by
  simp only [natGe, Bool.or_eq_true, decide_eq_true_eq]
  omega

theorem natGe_trans {a b c : Nat} (h1 : natGe a b) (h2 : natGe b c) :
    natGe a c := by
  simp only [natGe, decide_eq_true_eq] at *
  omega

theorem fdateLe_refl (a : FDate) : FDate.le a a := by
  cases a with
  | str s =>
      simp only [FDate.le]
      exact strLe_refl s
  | obj y m d =>
      simp only [FDate.le, Bool.or_eq_true, Bool.and_eq_true, decide_eq_true_eq,
        true_and]
      omega

theorem fdateLe_total (a b : FDate) : FDate.le a b || FDate.le b a := by
  cases a with
  | str sa =>
      cases b with
      | str sb =>
          simp only [FDate.le]
          exact strLe_total sa sb
      | obj y m d => simp [FDate.le]
  | obj ya ma da =>
      cases b with
      | str sb => simp [FDate.le]
      | obj y m d =>
          simp only [FDate.le, Bool.or_eq_true, Bool.and_eq_true, decide_eq_true_eq]
          omega

theorem fdateLe_trans {a b c : FDate} (h1 : FDate.le a b) (h2 : FDate.le b c) :
    FDate.le a c := by
  cases a <;> cases b <;> cases c <;>
    simp only [FDate.le, Bool.or_eq_true, Bool.and_eq_true, decide_eq_true_eq] at * <;>
    first
      | trivial
      | omega
      | exact strLe_trans h1 h2

theorem fdateLe_antisymm {a b : FDate} (h1 : FDate.le a b) (h2 : FDate.le b a) :
    a = b := by
  cases a <;> cases b <;>
    simp only [FDate.le, Bool.or_eq_true, Bool.and_eq_true, decide_eq_true_eq,
      FDate.str.injEq, FDate.obj.injEq] at * <;>
    first
      | trivial
      | omega
      | exact strLe_antisymm h1 h2

theorem lex2_total {α β : Type} [DecidableEq α]
    {la : α → α → Bool} {lb : β → β → Bool}
    (la_total : ∀ x y, la x y || la y x)
    (lb_total : ∀ x y, lb x y || lb y x)
    (x y : α × β) : lex2 la lb x y || lex2 la lb y x := by
  unfold lex2
  by_cases h : x.1 = y.1
  · rw [if_pos h, if_pos h.symm]
    exact lb_total x.2 y.2
  · rw [if_neg h, if_neg (Ne.symm h)]
    exact la_total x.1 y.1

theorem lex2_trans {α β : Type} [DecidableEq α]
    {la : α → α → Bool} {lb : β → β → Bool}
    (la_trans : ∀ x y z, la x y → la y z → la x z)
    (la_antisymm : ∀ x y, la x y → la y x → x = y)
    (lb_trans : ∀ x y z, lb x y → lb y z → lb x z)
    {x y z : α × β} (h1 : lex2 la lb x y) (h2 : lex2 la lb y z) :
    lex2 la lb x z := by
  unfold lex2 at *
  by_cases hxy : x.1 = y.1 <;> by_cases hyz : y.1 = z.1
  · rw [if_pos hxy] at h1
    rw [if_pos hyz] at h2
    rw [if_pos (hxy.trans hyz)]
    exact lb_trans _ _ _ h1 h2
  · rw [if_neg hyz] at h2
    rw [if_neg (hxy ▸ hyz), hxy]
    exact h2
  · rw [if_neg hxy] at h1
    rw [if_neg (hyz ▸ hxy), ← hyz]
    exact h1
  · rw [if_neg hxy] at h1
    rw [if_neg hyz] at h2
    by_cases hxz : x.1 = z.1
    · exact absurd (la_antisymm _ _ h1 (hxz ▸ h2)) hxy
    · rw [if_neg hxz]
      exact la_trans _ _ _ h1 h2

theorem fdateLe_trans3 (a b c : FDate) (h1 : FDate.le a b) (h2 : FDate.le b c) :
    FDate.le a c :=
  fdateLe_trans h1 h2

theorem fdateLe_antisymm2 (a b : FDate) (h1 : FDate.le a b) (h2 : FDate.le b a) :
    a = b :=
  fdateLe_antisymm h1 h2

theorem strLe_trans3 (a b c : String) (h1 : strLe a b) (h2 : strLe b c) :
    strLe a c :=
  strLe_trans h1 h2

theorem strLe_antisymm2 (a b : String) (h1 : strLe a b) (h2 : strLe b a) :
    a = b :=
  strLe_antisymm h1 h2

theorem natGe_trans3 (a b c : Nat) (h1 : natGe a b) (h2 : natGe b c) :
    natGe a c :=
  natGe_trans h1 h2

theorem keyLe_total (a b : FDate × String × String) : keyLe a b || keyLe b a := by
  unfold keyLe
  exact lex2_total fdateLe_total (lex2_total strLe_total strLe_total) a b

theorem ssLe_trans (x y z : String × String)
    (h1 : lex2 strLe strLe x y) (h2 : lex2 strLe strLe y z) :
    lex2 strLe strLe x z :=
  @lex2_trans String String _ strLe strLe strLe_trans3 strLe_antisymm2
    strLe_trans3 x y z h1 h2

theorem snLe_trans (x y z : String × Nat)
    (h1 : lex2 strLe natGe x y) (h2 : lex2 strLe natGe y z) :
    lex2 strLe natGe x z :=
  @lex2_trans String Nat _ strLe natGe strLe_trans3 strLe_antisymm2
    natGe_trans3 x y z h1 h2

theorem keyLe_trans (a b c : FDate × String × String)
    (h1 : keyLe a b) (h2 : keyLe b c) : keyLe a c := by
  unfold keyLe at h1 h2 ⊢
  exact @lex2_trans FDate (String × String) _ FDate.le (lex2 strLe strLe)
    fdateLe_trans3 fdateLe_antisymm2 ssLe_trans a b c h1 h2

theorem aggLe_total (a b : AggRow) : aggLe a b || aggLe b a := by
  unfold aggLe
  exact lex2_total fdateLe_total (lex2_total strLe_total natGe_total) _ _

theorem aggLe_trans (a b c : AggRow) (h1 : aggLe a b) (h2 : aggLe b c) :
    aggLe a c := by
  unfold aggLe at h1 h2 ⊢
  exact @lex2_trans FDate (String × Nat) _ FDate.le (lex2 strLe natGe)
    fdateLe_trans3 fdateLe_antisymm2 snLe_trans _ _ _ h1 h2

theorem pairLe_total (a b : String × String) : pairLe a b || pairLe b a := by
  unfold pairLe
  exact lex2_total strLe_total strLe_total a b

theorem pairLe_trans (a b c : String × String)
    (h1 : pairLe a b) (h2 : pairLe b c) : pairLe a c := by
  unfold pairLe at h1 h2 ⊢
  exact ssLe_trans a b c h1 h2

theorem topLe_total (a b : TopDistrict) : topLe a b || topLe b a :=
  natGe_total _ _

theorem topLe_trans (a b c : TopDistrict) (h1 : topLe a b) (h2 : topLe b c) :
    topLe a c :=
  natGe_trans h1 h2

/-! ### Generic list lemmas -/

open List

/-- `mergeSort` on a two-element list compares once. -/
theorem mergeSort_pair {α : Type} (le : α → α → Bool) (x y : α) :
    List.mergeSort [x, y] le = if le x y then [x, y] else [y, x] := by
  rw [List.mergeSort]
  simp [List.splitInTwo, List.splitAt_eq, List.merge]

/-- A member of a list of naturals is at most the sum of the list. -/
theorem mem_le_sum {l : List Nat} {a : Nat} (h : a ∈ l) : a ≤ l.sum := by
  induction l with
  | nil => cases h
  | cons x t ih =>
      rcases List.mem_cons.mp h with rfl | h2
      · simp
      · have := ih h2
        simp only [List.sum_cons]
        omega

/-- Summing group sums over a duplicate-free cover of the keys recovers
the total sum. -/
theorem sum_map_filter_key {α κ : Type} [DecidableEq κ] (key : α → κ)
    (w : α → Nat) :
    ∀ (ks : List κ) (l : List α), ks.Nodup → (∀ x ∈ l, key x ∈ ks) →
      (ks.map fun k => ((l.filter fun x => decide (key x = k)).map w).sum).sum
        = (l.map w).sum := by
  intro ks
  induction ks with
  | nil =>
      intro l _ hcov
      cases l with
      | nil => simp
      | cons x t => exact absurd (hcov x (by simp)) (by simp)
  | cons k ks ih =>
      intro l hnd hcov
      rcases List.nodup_cons.mp hnd with ⟨hk, hnd2⟩
      have hsplit :
          ((l.filter fun x => decide (key x = k)) ++
            (l.filter fun x => !(decide (key x = k)))) ~ l :=
        List.filter_append_perm _ l
      have hsum : (l.map w).sum
          = ((l.filter fun x => decide (key x = k)).map w).sum
            + ((l.filter fun x => !(decide (key x = k))).map w).sum := by
        have h := (hsplit.map w).sum_eq
        simpa [List.map_append, List.sum_append] using h.symm
      have hcov2 : ∀ x ∈ (l.filter fun x => !(decide (key x = k))), key x ∈ ks := by
        intro x hx
        rcases List.mem_filter.mp hx with ⟨hxl, hxk⟩
        rcases List.mem_cons.mp (hcov x hxl) with heq | h2
        · simp [heq] at hxk
        · exact h2
      have hmaps :
          (ks.map fun q => ((l.filter fun x => decide (key x = q)).map w).sum)
            = ks.map fun q =>
                (((l.filter fun x => !(decide (key x = k))).filter
                  fun x => decide (key x = q)).map w).sum := by
        apply List.map_congr_left
        intro q hq
        have hqk : q ≠ k := fun h => hk (h ▸ hq)
        rw [List.filter_filter]
        have hfun : (fun x => decide (key x = q) && !(decide (key x = k)))
            = fun x => decide (key x = q) := by
          funext x
          by_cases h : key x = q
          · simp [h, hqk]
          · simp [h]
        rw [hfun]
      rw [List.map_cons, List.sum_cons, hsum, hmaps,
        ih (l.filter fun x => !(decide (key x = k))) hnd2 hcov2]

/-- `Nat.digitChar` of a residue modulo ten is a decimal digit. -/
theorem digitChar_mod_isDigit (n : Nat) :
    (Nat.digitChar (n % 10)).isDigit = true := by
  have h : n % 10 < 10 := Nat.mod_lt _ (by omega)
  generalize hg : n % 10 = k at h
  interval_cases k <;> decide

/-- The rendering of a date object always has the YYYY-MM-DD shape. -/
theorem isYYYYMMDD_render_obj (y m d : Nat) :
    isYYYYMMDD (FDate.render (.obj y m d)) = true := by
  simp [isYYYYMMDD, FDate.render, pad4, pad2, digitChar_mod_isDigit]

/-! ### Characterization of the aggregation stage -/

theorem mem_groupby_size {pts : List MPoint} {r : AggRow} :
    r ∈ groupby_size pts ↔
      ∃ k ∈ (pts.map MPoint.key).dedup,
        (⟨k.1, k.2.1, k.2.2, pts.countP fun p => decide (p.key = k)⟩ : AggRow)
          = r := by
  simp [groupby_size]

theorem mem_process_fire_counts {pts : List MPoint} {r : AggRow} :
    r ∈ process_fire_counts pts ↔ r ∈ groupby_size pts := by
  simp [process_fire_counts]

theorem map_key_groupby_size (pts : List MPoint) :
    (groupby_size pts).map AggRow.key
      = ((pts.map MPoint.key).dedup).mergeSort keyLe := by
  rw [groupby_size, List.map_map]
  exact List.map_id' _

theorem nodup_key_process (pts : List MPoint) :
    ((process_fire_counts pts).map AggRow.key).Nodup := by
  have h1 : ((groupby_size pts).map AggRow.key).Nodup := by
    rw [map_key_groupby_size]
    exact ((List.mergeSort_perm _ _).nodup_iff).mpr (List.nodup_dedup _)
  have hp : process_fire_counts pts ~ groupby_size pts := List.mergeSort_perm _ _
  exact ((hp.map AggRow.key).nodup_iff).mpr h1

theorem process_row_spec {pts : List MPoint} {r : AggRow}
    (h : r ∈ process_fire_counts pts) :
    r.key ∈ pts.map MPoint.key ∧
      r.fire_count = pts.countP fun p => decide (p.key = r.key) := by
  rcases mem_groupby_size.mp (mem_process_fire_counts.mp h) with ⟨k, hk, hr⟩
  subst hr
  exact ⟨List.mem_dedup.mp hk, rfl⟩

theorem process_fire_count_pos {pts : List MPoint} {r : AggRow}
    (h : r ∈ process_fire_counts pts) : 1 ≤ r.fire_count := by
  rcases process_row_spec h with ⟨hmem, hc⟩
  rcases List.mem_map.mp hmem with ⟨p, hp, hpk⟩
  have : 0 < pts.countP fun q => decide (q.key = r.key) :=
    List.countP_pos_iff.mpr ⟨p, hp, by simp [hpk]⟩
  omega

theorem process_sorted (pts : List MPoint) :
    (process_fire_counts pts).Pairwise fun a b => aggLe a b :=
  List.sorted_mergeSort aggLe_trans aggLe_total _

theorem mem_unique_dates {t : List AggRow} {d : FDate} :
    d ∈ unique_dates t ↔ d ∈ t.map AggRow.ACQ_DATE := by
  simp [unique_dates]

theorem daily_data_eq (now : String) {t : List AggRow} (h : t ≠ []) :
    (create_json_output now t).daily_data
      = (unique_dates t).map (daily_entry t) := by
  simp [create_json_output, h]

theorem fire_sum_state_split {l : List AggRow}
    (h : ∀ r ∈ l, r.state = "Punjab" ∨ r.state = "Haryana") :
    fire_sum (state_rows l "Punjab") + fire_sum (state_rows l "Haryana")
      = fire_sum l := by
  induction l with
  | nil => simp [state_rows, fire_sum]
  | cons r t ih =>
      have ht : ∀ x ∈ t, x.state = "Punjab" ∨ x.state = "Haryana" :=
        fun x hx => h x (List.mem_cons_of_mem r hx)
      have ihh := ih ht
      rcases h r (by simp) with hst | hst <;>
        simp only [state_rows, fire_sum] at ihh ⊢ <;>
        simp [List.filter_cons, hst] at ihh ⊢ <;>
        omega

theorem daily_combined_sum (now : String) (t : List AggRow)
    (h : ∀ r ∈ t, r.state = "Punjab" ∨ r.state = "Haryana") :
    ((create_json_output now t).daily_data.map DailyEntry.combined_total).sum
      = fire_sum t := by
  by_cases ht : t = []
  · subst ht
    simp [create_json_output, fire_sum]
  · rw [daily_data_eq now ht, List.map_map]
    have hstep : ∀ d ∈ unique_dates t,
        (DailyEntry.combined_total ∘ daily_entry t) d
          = fire_sum (date_data t d) := by
      intro d _
      have hd : ∀ r ∈ date_data t d, r.state = "Punjab" ∨ r.state = "Haryana" :=
        fun r hr => h r (List.mem_filter.mp hr).1
      simpa [daily_entry] using fire_sum_state_split hd
    rw [List.map_congr_left hstep]
    have hperm : unique_dates t ~ (t.map AggRow.ACQ_DATE).dedup :=
      List.mergeSort_perm _ _
    rw [(hperm.map fun d => fire_sum (date_data t d)).sum_eq]
    have hcov : ∀ r ∈ t, r.ACQ_DATE ∈ (t.map AggRow.ACQ_DATE).dedup := by
      intro r hr
      exact List.mem_dedup.mpr (List.mem_map_of_mem _ hr)
    simpa [fire_sum, date_data] using
      sum_map_filter_key AggRow.ACQ_DATE AggRow.fire_count
        ((t.map AggRow.ACQ_DATE).dedup) t (List.nodup_dedup _) hcov

/-! ### Claims -/

/-- C1: for every non-empty aggregate table, each per-date entry of the
daily document has `combined_total` equal to the sum of the punjab and
haryana region totals, and each region total equals the sum of the
fire_count values of that region's district list. -/
theorem c1_daily_totals_consistent (now : String) (t : List AggRow)
    (hne : t ≠ []) :
    ∀ e ∈ (create_json_output now t).daily_data,
      e.combined_total = e.punjab.total + e.haryana.total ∧
      e.punjab.total = (e.punjab.districts.map DistrictCount.fire_count).sum ∧
      e.haryana.total = (e.haryana.districts.map DistrictCount.fire_count).sum := by
  intro e he
  rw [daily_data_eq now hne] at he
  rcases List.mem_map.mp he with ⟨d, hd, rfl⟩
  refine ⟨rfl, ?_, ?_⟩ <;>
    simp only [daily_entry, district_list, fire_sum, List.map_map] <;>
    exact congrArg List.sum (List.map_congr_left fun r _ => rfl)

theorem c1_witness :
    exTable ≠ [] ∧
    ∀ e ∈ (create_json_output "T" exTable).daily_data,
      e.combined_total = e.punjab.total + e.haryana.total ∧
      e.punjab.total = (e.punjab.districts.map DistrictCount.fire_count).sum ∧
      e.haryana.total = (e.haryana.districts.map DistrictCount.fire_count).sum :=
  ⟨by decide, c1_daily_totals_consistent "T" exTable (by decide)⟩

/-- C2: for every aggregate table (whose rows carry the two region
labels stamped by the loader), the summary `total_fire_count` equals the
sum of the `combined_total` values over the daily document built from
the same table. -/
theorem c2_total_fire_count_eq_daily_sum (now : String) (t : List AggRow)
    (h : ∀ r ∈ t, r.state = "Punjab" ∨ r.state = "Haryana") :
    (create_summary_output now t).total_fire_count
      = ((create_json_output now t).daily_data.map DailyEntry.combined_total).sum := by
  by_cases ht : t = []
  · subst ht
    simp [create_summary_output, create_json_output]
  · rw [daily_combined_sum now t h]
    simp [create_summary_output, ht]

theorem c2_witness :
    (∀ r ∈ exTable, r.state = "Punjab" ∨ r.state = "Haryana") ∧
    (create_summary_output "T" exTable).total_fire_count
      = ((create_json_output "T" exTable).daily_data.map DailyEntry.combined_total).sum :=
  ⟨by decide, c2_total_fire_count_eq_daily_sum "T" exTable (by decide)⟩

/-- C5: when zero points match any polygon the run does not fail: the
aggregate table is empty, both documents take their explicit well-formed
empty shapes (empty daily_data, zero total, null date range, empty
top_districts, zero state totals) and the run exits 0 having written
both files. -/
theorem c5_zero_match_outputs (now : String) (punjab haryana : DistrictSource)
    (h1 : DISTRICT_COLUMN ∈ punjab.columns)
    (h2 : DISTRICT_COLUMN ∈ haryana.columns) :
    process_fire_counts [] = [] ∧
    create_json_output now (process_fire_counts [])
      = ⟨now, "NASA FIRMS VIIRS (NOAA-20)", "7 days", []⟩ ∧
    create_summary_output now (process_fire_counts [])
      = ⟨now, 0, ⟨none, none⟩, [], ⟨0, 0⟩⟩ ∧
    main_run now punjab haryana (fun _ => [])
      = ⟨0, some ⟨now, "NASA FIRMS VIIRS (NOAA-20)", "7 days", []⟩,
          some ⟨now, 0, ⟨none, none⟩, [], ⟨0, 0⟩⟩⟩ := by
  have hempty : process_fire_counts [] = [] := by
    simp [process_fire_counts, groupby_size]
  refine ⟨hempty, ?_, ?_, ?_⟩
  · simp [hempty, create_json_output]
  · simp [hempty, create_summary_output]
  · simp [main_run, load_district_shapefiles, h1, h2, hempty,
      create_json_output, create_summary_output]

theorem c5_witness :
    DISTRICT_COLUMN ∈ exSrcGood.columns ∧
    main_run "T" exSrcGood exSrcGood (fun _ => [])
      = ⟨0, some ⟨"T", "NASA FIRMS VIIRS (NOAA-20)", "7 days", []⟩,
          some ⟨"T", 0, ⟨none, none⟩, [], ⟨0, 0⟩⟩⟩ :=
  ⟨by decide,
    (c5_zero_match_outputs "T" exSrcGood exSrcGood (by decide) (by decide)).2.2.2⟩

/-- C7: when the configured attribute column is missing from either
polygon source, the loader fails with a configuration error whose
diagnostic carries the full column list of the offending source, and the
run exits 1 with neither output file written. -/
theorem c7_missing_column_aborts (now : String) (punjab haryana : DistrictSource)
    (matched : List District → List MPoint)
    (h : DISTRICT_COLUMN ∉ punjab.columns ∨ DISTRICT_COLUMN ∉ haryana.columns) :
    (∃ msg cols,
        load_district_shapefiles punjab haryana
          = .error (.configurationError msg cols) ∧
        ((DISTRICT_COLUMN ∉ punjab.columns ∧ cols = punjab.columns) ∨
         (DISTRICT_COLUMN ∈ punjab.columns ∧ DISTRICT_COLUMN ∉ haryana.columns ∧
           cols = haryana.columns))) ∧
    main_run now punjab haryana matched = ⟨1, none, none⟩ := by
  by_cases hp : DISTRICT_COLUMN ∈ punjab.columns
  · rcases h with h | h
    · exact absurd hp h
    · refine ⟨⟨"Column dtname not found in Haryana shapefile",
          haryana.columns, ?_, Or.inr ⟨hp, h, rfl⟩⟩, ?_⟩
      · simp [load_district_shapefiles, hp, h]
      · simp [main_run, load_district_shapefiles, hp, h]
  · refine ⟨⟨"Column dtname not found in Punjab shapefile",
        punjab.columns, ?_, Or.inl ⟨hp, rfl⟩⟩, ?_⟩
    · simp [load_district_shapefiles, hp]
    · simp [main_run, load_district_shapefiles, hp]

theorem c7_witness :
    (DISTRICT_COLUMN ∉ exSrcBad.columns ∨ DISTRICT_COLUMN ∉ exSrcGood.columns) ∧
    main_run "T" exSrcBad exSrcGood (fun _ => []) = ⟨1, none, none⟩ :=
  ⟨by decide,
    (c7_missing_column_aborts "T" exSrcBad exSrcGood (fun _ => []) (by decide)).2⟩

/-- C8: if the CRS of the points equals the CRS of the districts, the
points are returned unchanged; if they differ, every point is
reprojected into the districts CRS and the number of points is
preserved. -/
theorem c8_crs_reconciliation (Geom : Type)
    (to_crs : String → String → Geom → Geom)
    (points : PointLayer Geom) (dcrs : String) :
    (points.crs = dcrs → reconcile_crs to_crs points dcrs = points) ∧
    (points.crs ≠ dcrs →
      (reconcile_crs to_crs points dcrs).crs = dcrs ∧
      (reconcile_crs to_crs points dcrs).geoms
        = points.geoms.map (to_crs points.crs dcrs) ∧
      (reconcile_crs to_crs points dcrs).geoms.length
        = points.geoms.length) := by
  constructor
  · intro h
    simp [reconcile_crs, h]
  · intro h
    simp [reconcile_crs, h]

theorem c8_witness :
    reconcile_crs (fun _ _ g => g + 1) (⟨"A", [7]⟩ : PointLayer Nat) "A"
      = ⟨"A", [7]⟩ ∧
    (reconcile_crs (fun _ _ g => g + 1) (⟨"A", [7]⟩ : PointLayer Nat) "B").geoms.length
      = 1 :=
  ⟨(c8_crs_reconciliation Nat (fun _ _ g => g + 1) ⟨"A", [7]⟩ "A").1 rfl,
   (((c8_crs_reconciliation Nat (fun _ _ g => g + 1) ⟨"A", [7]⟩ "B").2
      (by decide)).2.2).trans rfl⟩

/-- C9: on identical aggregate input the two output documents are
functions of the input alone — every field other than `last_updated`
agrees between any two runs. -/
theorem c9_outputs_deterministic (t : List AggRow) (n1 n2 : String) :
    (create_json_output n1 t).data_source = (create_json_output n2 t).data_source ∧
    (create_json_output n1 t).time_period = (create_json_output n2 t).time_period ∧
    (create_json_output n1 t).daily_data = (create_json_output n2 t).daily_data ∧
    (create_summary_output n1 t).total_fire_count
      = (create_summary_output n2 t).total_fire_count ∧
    (create_summary_output n1 t).date_range
      = (create_summary_output n2 t).date_range ∧
    (create_summary_output n1 t).top_districts
      = (create_summary_output n2 t).top_districts ∧
    (create_summary_output n1 t).state_totals
      = (create_summary_output n2 t).state_totals := by
  by_cases ht : t = [] <;>
    simp [create_json_output, create_summary_output, ht]

theorem aggLe_unfold {a b : AggRow} (hab : aggLe a b = true) :
    FDate.le a.ACQ_DATE b.ACQ_DATE = true ∧
    (a.ACQ_DATE = b.ACQ_DATE →
      strLe a.state b.state = true ∧
      (a.state = b.state → b.fire_count ≤ a.fire_count)) := by
  simp only [aggLe, lex2] at hab
  by_cases hd : a.ACQ_DATE = b.ACQ_DATE
  · rw [if_pos hd] at hab
    refine ⟨by rw [hd]; exact fdateLe_refl _, fun _ => ?_⟩
    by_cases hs : a.state = b.state
    · rw [if_pos hs] at hab
      exact ⟨by rw [hs]; exact strLe_refl _,
        fun _ => by simpa [natGe] using hab⟩
    · rw [if_neg hs] at hab
      exact ⟨hab, fun heq => absurd heq hs⟩
  · rw [if_neg hd] at hab
    exact ⟨hab, fun heq => absurd heq hd⟩

/-- C3: for every set of matched points the grouped-count table is keyed
by the (acquisition date, region, sub-region) triple — no key occurs
twice, every listed key is the key of some matched point, and each row's
fire_count is the size of its group — and the rows are sorted by
ascending date, then ascending region label, then descending fire
count. -/
theorem c3_grouped_table_keyed_sorted (pts : List MPoint) :
    ((process_fire_counts pts).map AggRow.key).Nodup ∧
    (∀ r ∈ process_fire_counts pts,
      r.key ∈ pts.map MPoint.key ∧
      r.fire_count = pts.countP fun p => decide (p.key = r.key)) ∧
    (process_fire_counts pts).Pairwise fun a b =>
      FDate.le a.ACQ_DATE b.ACQ_DATE = true ∧
      (a.ACQ_DATE = b.ACQ_DATE →
        strLe a.state b.state = true ∧
        (a.state = b.state → b.fire_count ≤ a.fire_count)) := by
  refine ⟨nodup_key_process pts, fun r hr => process_row_spec hr, ?_⟩
  exact (process_sorted pts).imp fun hab => aggLe_unfold hab

theorem c3_witness :
    ((process_fire_counts exPoints).map AggRow.key).Nodup ∧
    (∀ r ∈ process_fire_counts exPoints,
      r.key ∈ exPoints.map MPoint.key ∧
      r.fire_count = exPoints.countP fun p => decide (p.key = r.key)) ∧
    (process_fire_counts exPoints).Pairwise fun a b =>
      FDate.le a.ACQ_DATE b.ACQ_DATE = true ∧
      (a.ACQ_DATE = b.ACQ_DATE →
        strLe a.state b.state = true ∧
        (a.state = b.state → b.fire_count ≤ a.fire_count)) :=
  c3_grouped_table_keyed_sorted exPoints

theorem district_list_nodup {t : List AggRow}
    (hkeys : (t.map AggRow.key).Nodup) (d : FDate) (s : String) :
    ((district_list (state_rows (date_data t d) s)).map
      DistrictCount.district).Nodup := by
  have hmm : (district_list (state_rows (date_data t d) s)).map
      DistrictCount.district
      = (state_rows (date_data t d) s).map AggRow.dtname := by
    rw [district_list, List.map_map]
    exact List.map_congr_left fun r _ => rfl
  rw [hmm]
  have hsub : state_rows (date_data t d) s <+ t :=
    (List.filter_sublist _).trans (List.filter_sublist _)
  have hknd : ((state_rows (date_data t d) s).map AggRow.key).Nodup :=
    hkeys.sublist (hsub.map AggRow.key)
  have hconst : ∀ r ∈ state_rows (date_data t d) s,
      r.ACQ_DATE = d ∧ r.state = s := by
    intro r hr
    rcases List.mem_filter.mp hr with ⟨hr2, hs⟩
    rcases List.mem_filter.mp hr2 with ⟨_, hd2⟩
    exact ⟨by simpa using hd2, by simpa using hs⟩
  have hmm2 : (state_rows (date_data t d) s).map AggRow.dtname
      = ((state_rows (date_data t d) s).map AggRow.key).map
          (fun k => k.2.2) := by
    rw [List.map_map]
    exact List.map_congr_left fun r _ => rfl
  rw [hmm2]
  refine hknd.map_on ?_
  intro x hx y hy hxy
  rcases List.mem_map.mp hx with ⟨r, hr, rfl⟩
  rcases List.mem_map.mp hy with ⟨q, hq, rfl⟩
  rcases hconst r hr with ⟨hrd, hrs⟩
  rcases hconst q hq with ⟨hqd, hqs⟩
  simp only [AggRow.key] at hxy ⊢
  simp [hrd, hrs, hqd, hqs] at hxy ⊢
  exact hxy

theorem top_districts_pos {t : List AggRow}
    (hrow : ∀ r ∈ t, 1 ≤ r.fire_count) :
    ∀ td ∈ top_districts t, 1 ≤ td.total_fires := by
  intro td htd
  have h1 : td ∈ (pair_sums t).mergeSort topLe := List.mem_of_mem_take htd
  have h2 : td ∈ pair_sums t := List.mem_mergeSort.mp h1
  rcases List.mem_map.mp h2 with ⟨pr, hpr, rfl⟩
  have h3 : pr ∈ (t.map fun r => (r.state, r.dtname)).dedup :=
    List.mem_mergeSort.mp hpr
  rcases List.mem_map.mp (List.mem_dedup.mp h3) with ⟨r, hr, hrp⟩
  have hrf : r ∈ t.filter fun x => decide ((x.state, x.dtname) = pr) :=
    List.mem_filter.mpr ⟨hr, by simp [hrp]⟩
  have hmem : r.fire_count ∈
      (t.filter fun x => decide ((x.state, x.dtname) = pr)).map
        AggRow.fire_count :=
    List.mem_map_of_mem _ hrf
  have hle := mem_le_sum hmem
  have hpos := hrow r hr
  simp only [fire_sum]
  omega

/-- C10: every district entry of the daily per-date lists and every
top_districts entry carries a count of at least 1 — a key whose group is
empty is simply absent — and within one per-date region list each
district appears at most once. -/
theorem c10_positive_counts (now : String) (pts : List MPoint) :
    (∀ e ∈ (create_json_output now (process_fire_counts pts)).daily_data,
      (∀ c ∈ e.punjab.districts, 1 ≤ c.fire_count) ∧
      (∀ c ∈ e.haryana.districts, 1 ≤ c.fire_count) ∧
      (e.punjab.districts.map DistrictCount.district).Nodup ∧
      (e.haryana.districts.map DistrictCount.district).Nodup) ∧
    (∀ td ∈ (create_summary_output now (process_fire_counts pts)).top_districts,
      1 ≤ td.total_fires) := by
  constructor
  · intro e he
    by_cases ht : process_fire_counts pts = []
    · rw [ht] at he
      simp [create_json_output] at he
    · rw [daily_data_eq now ht] at he
      rcases List.mem_map.mp he with ⟨d, hd, rfl⟩
      refine ⟨?_, ?_,
        district_list_nodup (nodup_key_process pts) d "Punjab",
        district_list_nodup (nodup_key_process pts) d "Haryana"⟩ <;>
      · intro c hc
        simp only [daily_entry, district_list] at hc
        rcases List.mem_map.mp hc with ⟨r, hr, rfl⟩
        have hrt : r ∈ process_fire_counts pts :=
          (List.mem_filter.mp (List.mem_filter.mp hr).1).1
        exact process_fire_count_pos hrt
  · intro td htd
    by_cases ht : process_fire_counts pts = []
    · rw [ht] at htd
      simp [create_summary_output] at htd
    · have heq : (create_summary_output now (process_fire_counts pts)).top_districts
          = top_districts (process_fire_counts pts) := by
        simp [create_summary_output, ht]
      rw [heq] at htd
      exact top_districts_pos (fun r hr => process_fire_count_pos hr) td htd

theorem c10_witness :
    (∀ e ∈ (create_json_output "T" (process_fire_counts exPoints)).daily_data,
      (∀ c ∈ e.punjab.districts, 1 ≤ c.fire_count) ∧
      (∀ c ∈ e.haryana.districts, 1 ≤ c.fire_count) ∧
      (e.punjab.districts.map DistrictCount.district).Nodup ∧
      (e.haryana.districts.map DistrictCount.district).Nodup) ∧
    (∀ td ∈ (create_summary_output "T" (process_fire_counts exPoints)).top_districts,
      1 ≤ td.total_fires) :=
  c10_positive_counts "T" exPoints

/-- C4 (amended): the summary keeps at most 20 `top_districts` entries
with `total_fires` descending, dropping only pairs whose totals exceed
no kept entry; the relative order of entries with equal `total_fires` is
not guaranteed (the single-column descending sort leaves tie order
unspecified), so in particular it need not be first-encounter order.
The bound, the descending order and the selection property hold for
every descending arrangement of the per-pair sums — the result of any
implementation of the sort — and therefore also for the document's own
`top_districts` value. -/
theorem c4_top_districts_amended (now : String) (t : List AggRow) :
    (∀ sorted : List TopDistrict,
      sorted ~ pair_sums t →
      sorted.Pairwise (fun a b => b.total_fires ≤ a.total_fires) →
      (sorted.take 20).length ≤ 20 ∧
      (sorted.take 20).Pairwise (fun a b => b.total_fires ≤ a.total_fires) ∧
      (∀ a ∈ sorted.take 20, ∀ b ∈ sorted.drop 20,
        b.total_fires ≤ a.total_fires)) ∧
    (create_summary_output now t).top_districts.length ≤ 20 ∧
    (create_summary_output now t).top_districts.Pairwise
      (fun a b => b.total_fires ≤ a.total_fires) := by
  have hmain : ∀ sorted : List TopDistrict,
      sorted.Pairwise (fun a b => b.total_fires ≤ a.total_fires) →
      (sorted.take 20).length ≤ 20 ∧
      (sorted.take 20).Pairwise (fun a b => b.total_fires ≤ a.total_fires) ∧
      (∀ a ∈ sorted.take 20, ∀ b ∈ sorted.drop 20,
        b.total_fires ≤ a.total_fires) := by
    intro sorted hs
    refine ⟨by simp only [List.length_take]; omega,
      hs.sublist (List.take_sublist 20 _), ?_⟩
    have hsplit := List.take_append_drop 20 sorted
    rw [← hsplit] at hs
    exact (List.pairwise_append.mp hs).2.2
  refine ⟨fun sorted _ hs => hmain sorted hs, ?_⟩
  by_cases ht : t = []
  · subst ht
    simp [create_summary_output]
  · have heq : (create_summary_output now t).top_districts = top_districts t := by
      simp [create_summary_output, ht]
    have hsorted : ((pair_sums t).mergeSort topLe).Pairwise
        (fun a b => b.total_fires ≤ a.total_fires) :=
      (List.sorted_mergeSort topLe_trans topLe_total _).imp
        (fun h => by simpa [topLe, natGe] using h)
    have h := hmain _ hsorted
    rw [heq]
    unfold top_districts
    exact ⟨h.1, h.2.1⟩

theorem c4_counterexample :
    (create_summary_output "T" exTableTies).top_districts
      = [⟨"Punjab", "Alpha", 5⟩, ⟨"Punjab", "Zebra", 5⟩] ∧
    (exTableTies.map fun r => (r.state, r.dtname)).indexOf ("Punjab", "Zebra")
      < (exTableTies.map fun r => (r.state, r.dtname)).indexOf ("Punjab", "Alpha") := by
  constructor
  · have hne : exTableTies ≠ [] := by decide
    have hd : (exTableTies.map fun r => (r.state, r.dtname)).dedup
        = [("Punjab", "Zebra"), ("Punjab", "Alpha")] := by decide
    have h1 : ((exTableTies.map fun r => (r.state, r.dtname)).dedup).mergeSort pairLe
        = [("Punjab", "Alpha"), ("Punjab", "Zebra")] := by
      rw [hd, mergeSort_pair]
      decide
    have h2 : pair_sums exTableTies
        = [⟨"Punjab", "Alpha", 5⟩, ⟨"Punjab", "Zebra", 5⟩] := by
      unfold pair_sums
      rw [h1]
      decide
    have hs : ([⟨"Punjab", "Alpha", 5⟩, ⟨"Punjab", "Zebra", 5⟩] : List TopDistrict).Pairwise
        (fun a b => topLe a b = true) := by decide
    have h3 : top_districts exTableTies
        = [⟨"Punjab", "Alpha", 5⟩, ⟨"Punjab", "Zebra", 5⟩] := by
      unfold top_districts
      rw [h2, List.mergeSort_of_sorted hs]
      decide
    rw [create_summary_output, if_neg hne]
    exact h3
  · decide

theorem c4_witness :
    (([⟨"Punjab", "Alpha", 5⟩, ⟨"Punjab", "Zebra", 5⟩] : List TopDistrict).take 20).length ≤ 20 ∧
    (∀ a ∈ ([⟨"Punjab", "Alpha", 5⟩, ⟨"Punjab", "Zebra", 5⟩] : List TopDistrict).take 20,
      ∀ b ∈ ([⟨"Punjab", "Alpha", 5⟩, ⟨"Punjab", "Zebra", 5⟩] : List TopDistrict).drop 20,
        b.total_fires ≤ a.total_fires) ∧
    (create_summary_output "T" exTableTies).top_districts.length ≤ 20 := by
  have h := c4_top_districts_amended "T" exTableTies
  have hd : (exTableTies.map fun r => (r.state, r.dtname)).dedup
      = [("Punjab", "Zebra"), ("Punjab", "Alpha")] := by decide
  have h1 : ((exTableTies.map fun r => (r.state, r.dtname)).dedup).mergeSort pairLe
      = [("Punjab", "Alpha"), ("Punjab", "Zebra")] := by
    rw [hd, mergeSort_pair]
    decide
  have h2 : pair_sums exTableTies
      = [⟨"Punjab", "Alpha", 5⟩, ⟨"Punjab", "Zebra", 5⟩] := by
    unfold pair_sums
    rw [h1]
    decide
  have hperm : ([⟨"Punjab", "Alpha", 5⟩, ⟨"Punjab", "Zebra", 5⟩] : List TopDistrict)
      ~ pair_sums exTableTies := by
    rw [h2]
  have hall := h.1 _ hperm (by decide)
  exact ⟨hall.1, hall.2.2, h.2.1⟩

theorem c6_counterexample :
    (create_json_output "T" exTableStr).daily_data.map DailyEntry.date
      = ["Jan 1, 2024"] ∧
    isYYYYMMDD "Jan 1, 2024" = false ∧
    (create_summary_output "T" exTableStr).date_range.start
      = some "Jan 1, 2024" := by
  have hne : ¬ (exTableStr = []) := by decide
  have hu : unique_dates exTableStr = [FDate.str "Jan 1, 2024"] := by
    unfold unique_dates
    have hd : (exTableStr.map AggRow.ACQ_DATE).dedup
        = [FDate.str "Jan 1, 2024"] := by decide
    rw [hd, List.mergeSort_singleton]
  refine ⟨?_, by decide, ?_⟩
  · simp only [create_json_output, if_neg hne, hu]
    decide
  · simp only [create_summary_output, if_neg hne, hu]
    decide

/-- C6 (amended): a date supplied as a date object is rendered as a
YYYY-MM-DD string, while a date supplied as a string is emitted
verbatim; hence every date value of both documents has the YYYY-MM-DD
shape provided every string-form date in the table already does (as the
FIRMS ACQ_DATE strings do) — date objects need no precondition. -/
theorem c6_dates_amended (now : String) (t : List AggRow)
    (h : ∀ r ∈ t, ∀ s, r.ACQ_DATE = FDate.str s → isYYYYMMDD s = true) :
    (∀ e ∈ (create_json_output now t).daily_data, isYYYYMMDD e.date = true) ∧
    (∀ s, (create_summary_output now t).date_range.start = some s →
      isYYYYMMDD s = true) ∧
    (∀ s, (create_summary_output now t).date_range.«end» = some s →
      isYYYYMMDD s = true) := by
  have hrend : ∀ d : FDate, (∀ s, d = FDate.str s → isYYYYMMDD s = true) →
      isYYYYMMDD d.render = true := by
    intro d hd
    cases d with
    | str s => simpa [FDate.render] using hd s rfl
    | obj y m dd => exact isYYYYMMDD_render_obj y m dd
  have hdate : ∀ d ∈ unique_dates t, isYYYYMMDD d.render = true := by
    intro d hd
    rcases List.mem_map.mp (mem_unique_dates.mp hd) with ⟨r, hr, rfl⟩
    exact hrend _ fun s hs => h r hr s hs
  refine ⟨?_, ?_, ?_⟩
  · intro e he
    by_cases ht : t = []
    · rw [ht] at he
      simp [create_json_output] at he
    · rw [daily_data_eq now ht] at he
      rcases List.mem_map.mp he with ⟨d, hd, rfl⟩
      exact hdate d hd
  · intro s hs
    by_cases ht : t = []
    · rw [ht] at hs
      simp [create_summary_output] at hs
    · simp only [create_summary_output, if_neg ht] at hs
      rcases Option.map_eq_some'.mp hs with ⟨d, hd, rfl⟩
      exact hdate d (List.mem_of_mem_head? hd)
  · intro s hs
    by_cases ht : t = []
    · rw [ht] at hs
      simp [create_summary_output] at hs
    · simp only [create_summary_output, if_neg ht] at hs
      rcases Option.map_eq_some'.mp hs with ⟨d, hd, rfl⟩
      exact hdate d (List.mem_of_mem_getLast? hd)

theorem c6_witness :
    (∀ r ∈ exTableObj, ∀ s, r.ACQ_DATE = FDate.str s → isYYYYMMDD s = true) ∧
    ((∀ e ∈ (create_json_output "T" exTableObj).daily_data,
        isYYYYMMDD e.date = true) ∧
     (∀ s, (create_summary_output "T" exTableObj).date_range.start = some s →
        isYYYYMMDD s = true) ∧
     (∀ s, (create_summary_output "T" exTableObj).date_range.«end» = some s →
        isYYYYMMDD s = true)) := by
  have h : ∀ r ∈ exTableObj, ∀ s, r.ACQ_DATE = FDate.str s →
      isYYYYMMDD s = true := by
    intro r hr s hs
    rcases List.mem_singleton.mp hr with rfl
    exact FDate.noConfusion hs
  exact ⟨h, c6_dates_amended "T" exTableObj h⟩
